import Mathlib

set_option maxRecDepth 8000

/-!
Verification of the nutrition-facts resolver (`src/recipe.rs`, `src/main.rs`).

The resolver is embedded shallowly:

* `F64` models Rust `f64`: finite values are exact rationals (`fin q`); all
  non-finite values (`inf`, `-inf`, `NaN`) are lumped into one point `nonfin`.
  Every arithmetic operation the program performs maps finite operands to the
  exact real result and propagates non-finiteness exactly as IEEE-754 does for
  the operand shapes occurring in this program (the only divisions in the
  source are `amount / 100.0` and `100.0 / basis`, whose divisors are finite
  document values, and `x / 0.0`, `0.0 * inf`, `inf * q` are all non-finite).
* `NutritionFacts` (`HashMap<Nutrition, f64>` in the source) is a finite map
  from the four-element `Nutrition` enum, embedded as `Nutrition → Option F64`.
  The source iterates the hash map only to accumulate per-key (order
  irrelevant: distinct keys touch distinct accumulator entries) and to display
  in `enum_iterator` order, so the function embedding is faithful.
* File I/O (`Recipe::read_from_file`) is replaced by a `Loader`, an explicit
  association list from paths to parsed recipes, as the specification's
  "external document loader".
* The recursion of `Recipe::get_nutrition_facts` through `RecipeRef` products
  is bounded by an explicit `fuel` parameter: entering a recipe consumes one
  unit, and exhaustion yields the distinguished error `Err.outOfFuel`.  The
  source has no such bound; `outOfFuel` at every fuel witnesses that the
  source recursion is still running at every finite depth.
* Rust `panic!` is modelled as the error `Err.crash msg` carrying the exact
  formatted panic message; it is distinguished from the recoverable errors of
  the specification's taxonomy (`productNotFound`, `cyclicReference`,
  `invalidBasisWeight`), which are present in `Err` only so that claims about
  them can be stated -- the source never produces them.
-/

namespace Nutritions

/-- The closed nutrient enumeration of the source (`enum Nutrition`),
in declaration order Energy, Proteins, Fats, Carbohydrates. -/
inductive Nutrition where
  | Energy
  | Proteins
  | Fats
  | Carbohydrates
deriving DecidableEq, Repr, Fintype

/-- Model of Rust `f64`: an exact rational for finite values, or the single
point `nonfin` standing for every non-finite value (infinities and NaN). -/
inductive F64 where
  | fin (q : ℚ)
  | nonfin
deriving DecidableEq, Repr

/-- IEEE addition on the model: finite plus finite is exact; any non-finite
operand yields a non-finite result (`inf + q`, `NaN + x`, `inf - inf` are all
non-finite). -/
def F64.add : F64 → F64 → F64
  | .fin a, .fin b => .fin (a + b)
  | _, _ => .nonfin

/-- IEEE multiplication on the model: finite times finite is exact; any
non-finite operand yields a non-finite result (`0 * inf = NaN`,
`q * inf = inf`, `NaN * x = NaN` are all non-finite). -/
def F64.mul : F64 → F64 → F64
  | .fin a, .fin b => .fin (a * b)
  | _, _ => .nonfin

/-- IEEE division of the model by a finite document value `b : ℚ` (the only
divisor shapes in the source are finite numbers read from documents):
division by zero is non-finite (`q / 0 = ±inf`, `0 / 0 = NaN`), a non-finite
numerator stays non-finite. -/
def F64.divQ : F64 → ℚ → F64
  | .fin a, b => if b = 0 then .nonfin else .fin (a / b)
  | .nonfin, _ => .nonfin

/-- `NutritionFacts` of the source: a finite map from `Nutrition` to `f64`;
an absent key means "no data", not zero. -/
abbrev NutritionFacts := Nutrition → Option F64

/-- The empty nutrition-facts map (`HashMap::new()`). -/
def emptyFacts : NutritionFacts := fun _ => none

/-- `struct Ingredient { product: String, amount: f64 }`; `amount` is a mass
in grams taken from the document, hence finite. -/
structure Ingredient where
  product : String
  amount : ℚ
deriving DecidableEq, Repr

/-- `struct Dish { ingredients: Vec<Ingredient>, weight: Option<f64> }`. -/
structure Dish where
  ingredients : List Ingredient
  weight : Option ℚ
deriving Repr

/-- `enum NutritionData { Facts(NutritionFacts), Recipe(PathBuf) }`: a product
either carries facts directly or references another recipe document. -/
inductive NutritionData where
  | facts (f : NutritionFacts)
  | recipe (path : String)

/-- `struct Product { name: String, nutrition_data: NutritionData }`. -/
structure Product where
  name : String
  nutrition_data : NutritionData

/-- `struct Recipe { products: Vec<Product>, dish: Dish }`. -/
structure Recipe where
  products : List Product
  dish : Dish

/-- The external document loader: a map from paths to parsed recipes,
standing for `Recipe::read_from_file`.  A path absent from the loader models
a missing or unreadable file. -/
abbrev Loader := List (String × Recipe)

/-- Failure modes of resolution.  The source produces only the first three:
`crash` models a Rust `panic!` (process abort) with its formatted message,
`loadError` a failing `Recipe::read_from_file`, and `outOfFuel` marks that
the source's unbounded recursion is still running at the given depth.  The
last three constructors are the recoverable error taxonomy demanded by the
specification (§7); they exist so that claims about them can be stated, and
no definition in this file ever constructs them. -/
inductive Err where
  | crash (msg : String)
  | loadError (path : String)
  | outOfFuel
  | productNotFound (missing : String) (available : List String)
  | cyclicReference
  | invalidBasisWeight
deriving DecidableEq, Repr

/-- The exact panic message of the source:
`panic!("Cannot find ingredient in recipe: {} possible products: {}", ...)`
with the available names joined by `", "`. -/
def panicMessage (missing : String) (available : List String) : String :=
  "Cannot find ingredient in recipe: " ++ missing ++ " possible products: " ++
    String.intercalate ", " available

/-- One accumulated contribution: `amount / 100.0 * ingredient.amount`
(line 102 of the source). -/
def contributionOf (a : F64) (amt : ℚ) : F64 :=
  (a.divQ 100).mul (.fin amt)

/-- Fold one product's facts into the running totals
(`totals_for_dish.entry(*nutrient).and_modify(|v| *v += this_amount)
.or_insert(this_amount)`), pointwise over the four possible keys. -/
def accumulate (totals facts : NutritionFacts) (amt : ℚ) : NutritionFacts :=
  fun n =>
    match facts n with
    | none => totals n
    | some a =>
      match totals n with
      | none => some (contributionOf a amt)
      | some t => some (t.add (contributionOf a amt))

/-- `Product::get_nutrition_facts`, abstracted over the recursive call
`recur` used for the `Recipe` variant: direct facts are returned as-is; a
recipe reference loads the document at the path and recurses on it. -/
def Product.resolveWith (recur : Recipe → Except Err NutritionFacts)
    (loader : Loader) (p : Product) : Except Err NutritionFacts :=
  match p.nutrition_data with
  | .facts f => .ok f
  | .recipe path =>
    match List.lookup path loader with
    | none => .error (.loadError path)
    | some r => recur r

/-- The ingredient loop of `Recipe::get_nutrition_facts` (lines 98-127):
look each ingredient's product up by name (first match), panic when absent,
otherwise resolve the product's facts and accumulate them together with the
running total of ingredient mass. -/
def resolveIngredients (resolveP : Product → Except Err NutritionFacts)
    (products : List Product) :
    List Ingredient → NutritionFacts → ℚ → Except Err (NutritionFacts × ℚ)
  | [], totals, tw => .ok (totals, tw)
  | ing :: rest, totals, tw =>
    match products.find? (fun p => p.name == ing.product) with
    | none =>
      .error (.crash (panicMessage ing.product (products.map (fun p => p.name))))
    | some p =>
      match resolveP p with
      | .error e => .error e
      | .ok f =>
        resolveIngredients resolveP products rest
          (accumulate totals f ing.amount) (tw + ing.amount)

/-- The final normalisation (lines 134-145): multiply every accumulated
entry by `weight_to_hundred`. -/
def scaleFacts (totals : NutritionFacts) (w : F64) : NutritionFacts :=
  fun n => (totals n).map (fun a => a.mul w)

/-- `Recipe::get_nutrition_facts`, with an explicit recursion budget `fuel`
(one unit per recipe entered; the source has no bound).  The dish's totals
are accumulated over the ingredients and scaled by
`100.0 / dish.weight.unwrap_or(total_ingredients_weight)`. -/
def Recipe.getNutritionFacts (loader : Loader) :
    Nat → Recipe → Except Err NutritionFacts
  | 0, _ => .error .outOfFuel
  | fuel + 1, r =>
    match resolveIngredients
        (Product.resolveWith (Recipe.getNutritionFacts loader fuel) loader)
        r.products r.dish.ingredients emptyFacts 0 with
    | .error e => .error e
    | .ok (totals, totalWeight) =>
      .ok (scaleFacts totals
        (F64.divQ (.fin 100) (r.dish.weight.getD totalWeight)))

/-- `Product::get_nutrition_facts` at a given fuel. -/
def Product.getNutritionFacts (loader : Loader) (fuel : Nat)
    (p : Product) : Except Err NutritionFacts :=
  Product.resolveWith (Recipe.getNutritionFacts loader fuel) loader p

/-- Decidable equality for `Except` results, so that concrete resolutions
can be checked by evaluation. -/
instance {ε α : Type} [DecidableEq ε] [DecidableEq α] :
    DecidableEq (Except ε α) := fun x y =>
  match x, y with
  | .error a, .error b =>
    if h : a = b then .isTrue (by rw [h]) else .isFalse (by simp [h])
  | .error _, .ok _ => .isFalse (by simp)
  | .ok _, .error _ => .isFalse (by simp)
  | .ok a, .ok b =>
    if h : a = b then .isTrue (by rw [h]) else .isFalse (by simp [h])

/-! ### Presentation (`impl fmt::Display for NutritionFacts`) -/

/-- `enum_iterator::all::<Nutrition>()`: the enumeration in declaration
order. -/
def Nutrition.all : List Nutrition :=
  [.Energy, .Proteins, .Fats, .Carbohydrates]

/-- The `{:?}` (Debug) rendering of a nutrient: its variant name. -/
def Nutrition.debugStr : Nutrition → String
  | .Energy => "Energy"
  | .Proteins => "Proteins"
  | .Fats => "Fats"
  | .Carbohydrates => "Carbohydrates"

/-- Render a non-negative number of hundredths as a two-decimal string,
e.g. `250 ↦ "2.50"`, `5 ↦ "0.05"`. -/
def formatHundredths (k : ℕ) : String :=
  toString (k / 100) ++ "." ++ (if k % 100 < 10 then "0" else "") ++
    toString (k % 100)

/-- Rust's `{:.2}` formatting of an `f64`: round to the nearest hundredth
and print two digits after the point (an actual `f64` is dyadic, so the
exact-tie case never arises and the rounding mode of ties is immaterial);
non-finite values print their special names, lumped here as "NaN". -/
def formatF64 : F64 → String
  | .nonfin => "NaN"
  | .fin q =>
    if round (q * 100) < 0 then
      "-" ++ formatHundredths (round (q * 100)).natAbs
    else
      formatHundredths (round (q * 100)).toNat

/-- One output line `write!(f, "{:?}:  {:.2}\n", item, value)` of the
`Display` implementation, or the empty string for an absent nutrient. -/
def nutrLine (n : Nutrition) (v : Option F64) : String :=
  match v with
  | none => ""
  | some a => n.debugStr ++ ":  " ++ formatF64 a ++ "\n"

/-- `impl fmt::Display for NutritionFacts`: iterate the enumeration in
order, printing one line per nutrient present in the mapping. -/
def NutritionFacts.fmt (f : NutritionFacts) : String :=
  Nutrition.all.foldl
    (fun s n =>
      match f n with
      | none => s
      | some v => s ++ (n.debugStr ++ ":  " ++ formatF64 v ++ "\n")) ""

/-! ### Derived views of resolution used to state the claims -/

/-- The facts a single ingredient resolves to under a given product
resolver: the first product in pantry order whose name matches, resolved;
`none` if the lookup or the resolution fails. -/
def ingFacts (resolveP : Product → Except Err NutritionFacts)
    (products : List Product) (ing : Ingredient) : Option NutritionFacts :=
  (products.find? (fun p => p.name == ing.product)).bind
    (fun p => (resolveP p).toOption)

/-- Whether an ingredient's resolved facts carry the nutrient `n`. -/
def ingredientHasNutrient (loader : Loader) (fuel : Nat)
    (products : List Product) (ing : Ingredient) (n : Nutrition) : Bool :=
  match ingFacts (Product.getNutritionFacts loader fuel) products ing with
  | some f => (f n).isSome
  | none => false

/-- The direct (non-recursive) facts of the product an ingredient matches:
`some f` exactly when the first matching product carries the `Facts`
variant. -/
def directFacts (products : List Product) (ing : Ingredient) :
    Option NutritionFacts :=
  (products.find? (fun p => p.name == ing.product)).bind
    (fun p =>
      match p.nutrition_data with
      | .facts f => some f
      | .recipe _ => none)

/-- One pure accumulation step of the ingredient loop, after resolution of
the ingredient's facts has been shown to succeed. -/
def pureStep (resolveP : Product → Except Err NutritionFacts)
    (products : List Product) (acc : NutritionFacts × ℚ)
    (ing : Ingredient) : NutritionFacts × ℚ :=
  (accumulate acc.1 ((ingFacts resolveP products ing).getD emptyFacts)
      ing.amount,
    acc.2 + ing.amount)

/-- The pure accumulation step restricted to directly declared facts. -/
def dStep (products : List Product) (acc : NutritionFacts × ℚ)
    (ing : Ingredient) : NutritionFacts × ℚ :=
  (accumulate acc.1 ((directFacts products ing).getD emptyFacts) ing.amount,
    acc.2 + ing.amount)

/-- Stated from the specification (§4.1 step 2d): one ingredient's
contribution to a nutrient, `per100gAmount / 100.0 * ingredient.amount`,
zero when the matched product's facts lack the nutrient. -/
def specContribution (products : List Product) (ing : Ingredient)
    (n : Nutrition) : F64 :=
  match (directFacts products ing).bind (fun f => f n) with
  | some a => contributionOf a ing.amount
  | none => .fin 0

/-- Stated from the specification: the sum over the ingredients of their
contributions to a nutrient. -/
def specTotal (products : List Product) (l : List Ingredient)
    (n : Nutrition) : F64 :=
  (l.map (fun ing => specContribution products ing n)).foldr F64.add (.fin 0)

/-- Whether an ingredient's directly declared facts carry nutrient `n`. -/
def ingredientHasDirectKey (products : List Product) (ing : Ingredient)
    (n : Nutrition) : Bool :=
  ((directFacts products ing).bind (fun f => f n)).isSome

/-- Whether nutrient `n` appears in at least one matched product's facts. -/
def specHasKey (products : List Product) (l : List Ingredient)
    (n : Nutrition) : Bool :=
  l.any (fun ing => ingredientHasDirectKey products ing n)

/-- Stated from the specification (§4.2): the effective basis weight,
`dish.weight` if present, else the sum of ingredient amounts. -/
def specBasis (r : Recipe) : ℚ :=
  r.dish.weight.getD ((r.dish.ingredients.map (fun i => i.amount)).sum)

/-- Stated from the specification (§4.1-§4.2): the resolved facts of a
recipe whose ingredients all carry direct facts -- each nutrient appearing
in at least one matched product's facts maps to its summed contribution
scaled by `100 / basis`; every other nutrient is absent. -/
def specResolve (r : Recipe) : NutritionFacts := fun n =>
  if specHasKey r.products r.dish.ingredients n then
    some ((specTotal r.products r.dish.ingredients n).mul
      (F64.divQ (.fin 100) (specBasis r)))
  else
    none

/-! ### Concrete documents used by the claims -/

/-- A facts table carrying a single `Energy` entry. -/
def energyOnly (q : ℚ) : NutritionFacts := fun n =>
  match n with
  | .Energy => some (.fin q)
  | _ => none

/-- The `Oil` product of the source's tests: Energy 1000 per 100 g. -/
def oilProduct : Product := ⟨"Oil", .facts (energyOnly 1000)⟩

/-- The `Milk` product of the source's `fail_not_found` test. -/
def milkProduct : Product := ⟨"Milk", .facts (energyOnly 1000)⟩

/-- The `calculate1` recipe of the source: 10 g of Oil, dish weight 20 g. -/
def oilRecipeW20 : Recipe := ⟨[oilProduct], ⟨[⟨"Oil", 10⟩], some 20⟩⟩

/-- The same dish with the explicit weight omitted. -/
def oilRecipeNoW : Recipe := ⟨[oilProduct], ⟨[⟨"Oil", 10⟩], none⟩⟩

/-- The `fail_not_found` recipe of the source: an ingredient `cabbage`
against a pantry of `Oil` and `Milk`. -/
def cabbageRecipe : Recipe :=
  ⟨[oilProduct, milkProduct], ⟨[⟨"cabbage", 10⟩], some 20⟩⟩

/-- An empty ingredient list with no explicit dish weight. -/
def emptyDishRecipe : Recipe := ⟨[], ⟨[], none⟩⟩

/-- 10 g of Oil with an explicit dish weight of zero. -/
def zeroWeightRecipe : Recipe := ⟨[oilProduct], ⟨[⟨"Oil", 10⟩], some 0⟩⟩

/-- A result carrying a single non-finite `Energy` entry. -/
def nonfinEnergyOut : NutritionFacts := fun n =>
  match n with
  | .Energy => some .nonfin
  | _ => none

/-- A product declaring Energy 0 per 100 g. -/
def zeroEnergyProduct : Product := ⟨"Oil", .facts (energyOnly 0)⟩

/-- 10 g of a zero-Energy product with an explicit dish weight of zero. -/
def zeroWeightZeroEnergyRecipe : Recipe :=
  ⟨[zeroEnergyProduct], ⟨[⟨"Oil", 10⟩], some 0⟩⟩

/-- 10 g of a zero-Energy product with an explicit dish weight of 20 g. -/
def zeroEnergyRecipeW20 : Recipe :=
  ⟨[zeroEnergyProduct], ⟨[⟨"Oil", 10⟩], some 20⟩⟩

/-- The inner document of the recursive-resolution example: its dish
resolves to Energy 200 per 100 g. -/
def innerRecipe : Recipe :=
  ⟨[⟨"Base", .facts (energyOnly 200)⟩], ⟨[⟨"Base", 100⟩], none⟩⟩

/-- The outer document: 50 g of a product referencing the inner document,
dish weight 50 g. -/
def outerRecipe : Recipe :=
  ⟨[⟨"Inner", .recipe "inner.yaml"⟩], ⟨[⟨"Inner", 50⟩], some 50⟩⟩

/-- Loader for the recursive-resolution example. -/
def refLoader : Loader := [("inner.yaml", innerRecipe)]

/-- Document A of the cyclic chain: its only product references
`b.yaml`. -/
def recipeA : Recipe := ⟨[⟨"B", .recipe "b.yaml"⟩], ⟨[⟨"B", 50⟩], none⟩⟩

/-- Document B of the cyclic chain: its only product references
`a.yaml`. -/
def recipeB : Recipe := ⟨[⟨"A", .recipe "a.yaml"⟩], ⟨[⟨"A", 50⟩], none⟩⟩

/-- Loader closing the cycle `a.yaml → b.yaml → a.yaml`. -/
def cycleLoader : Loader := [("a.yaml", recipeA), ("b.yaml", recipeB)]

/-- A second product also named `Oil`, with different facts, for the
duplicate-name claim. -/
def oilProduct2000 : Product := ⟨"Oil", .facts (energyOnly 2000)⟩

/-- A dish of 10 g of `Oil` with weight 20 g, shared by the duplicate-name
instances. -/
def oilDish : Dish := ⟨[⟨"Oil", 10⟩], some 20⟩

/-- A `Milk` product with Proteins 50 per 100 g, for the permutation
instance. -/
def milkProteins : Product :=
  ⟨"Milk", .facts (fun n =>
    match n with
    | .Proteins => some (.fin 50)
    | _ => none)⟩

/-! ### Arithmetic of the `f64` model -/

theorem fadd_comm (a b : F64) : a.add b = b.add a := by
  cases a <;> cases b <;> simp [F64.add, add_comm]

theorem fadd_assoc (a b c : F64) : (a.add b).add c = a.add (b.add c) := by
  cases a <;> cases b <;> cases c <;> simp [F64.add, add_assoc]

theorem fzero_add (a : F64) : (F64.fin 0).add a = a := by
  cases a <;> simp [F64.add]

theorem fadd_zero (a : F64) : a.add (F64.fin 0) = a := by
  cases a <;> simp [F64.add]

theorem fadd_right_comm (a b c : F64) :
    (a.add b).add c = (a.add c).add b := by
  cases a <;> cases b <;> cases c <;> simp [F64.add] <;> ring

theorem fadd_left_swap (a b c : F64) :
    a.add (b.add c) = c.add (b.add a) := by
  cases a <;> cases b <;> cases c <;> simp [F64.add] <;> ring

/-! ### Pointwise behaviour of accumulation -/

theorem accumulate_eval (totals facts : NutritionFacts) (amt : ℚ)
    (n : Nutrition) :
    (accumulate totals facts amt) n =
      match facts n with
      | none => totals n
      | some x =>
        some ((totals n).elim (contributionOf x amt)
          (fun t => t.add (contributionOf x amt))) := by
  unfold accumulate
  cases facts n <;> cases totals n <;> simp

theorem accumulate_isSome (totals facts : NutritionFacts) (amt : ℚ)
    (n : Nutrition) :
    ((accumulate totals facts amt) n).isSome =
      ((totals n).isSome || (facts n).isSome) := by
  unfold accumulate
  cases facts n <;> cases totals n <;> simp

theorem accumulate_comm (totals f g : NutritionFacts) (a b : ℚ) :
    accumulate (accumulate totals f a) g b =
      accumulate (accumulate totals g b) f a := by
  funext n
  cases hf : f n <;> cases hg : g n <;> cases ht : totals n <;>
    simp [accumulate, hf, hg, ht, fadd_comm, fadd_right_comm, fadd_left_swap]

theorem getD_eval (ps : List Product) (ing : Ingredient) (n : Nutrition) :
    ((directFacts ps ing).getD emptyFacts) n =
      (directFacts ps ing).bind (fun f => f n) := by
  cases directFacts ps ing <;> simp [emptyFacts]

/-! ### The ingredient loop under total success -/

theorem resolveIngredients_ok_of_forall
    (R : Product → Except Err NutritionFacts) (ps : List Product) :
    ∀ (l : List Ingredient) (totals : NutritionFacts) (tw : ℚ),
      (∀ ing ∈ l, (ingFacts R ps ing).isSome = true) →
      resolveIngredients R ps l totals tw =
        .ok (l.foldl (pureStep R ps) (totals, tw)) := by
  intro l
  induction l with
  | nil => intro totals tw _; simp [resolveIngredients]
  | cons ing rest ih =>
    intro totals tw h
    have h1 : (ingFacts R ps ing).isSome = true := h ing (by simp)
    rcases hfind : ps.find? (fun p => p.name == ing.product) with _ | p
    · rw [ingFacts, hfind] at h1; simp at h1
    · rcases hres : R p with e | f
      · rw [ingFacts, hfind] at h1
        simp [hres, Except.toOption] at h1
      · have hif : ingFacts R ps ing = some f := by
          rw [ingFacts, hfind]; simp [hres, Except.toOption]
        simp only [resolveIngredients, hfind, hres, List.foldl_cons]
        rw [ih _ _ (fun i hi => h i (by simp [hi]))]
        simp [pureStep, hif]

theorem resolveIngredients_forall_of_ok
    (R : Product → Except Err NutritionFacts) (ps : List Product) :
    ∀ (l : List Ingredient) (totals : NutritionFacts) (tw : ℚ)
      (res : NutritionFacts × ℚ),
      resolveIngredients R ps l totals tw = .ok res →
      ∀ ing ∈ l, (ingFacts R ps ing).isSome = true := by
  intro l
  induction l with
  | nil => intro totals tw res _ ing hmem; simp at hmem
  | cons ing rest ih =>
    intro totals tw res h i hi
    rcases hfind : ps.find? (fun p => p.name == ing.product) with _ | p
    · simp [resolveIngredients, hfind] at h
    · rcases hres : R p with e | f
      · simp [resolveIngredients, hfind, hres] at h
      · rcases List.mem_cons.mp hi with rfl | hi'
        · rw [ingFacts, hfind]; simp [hres, Except.toOption]
        · exact ih _ _ _
            (by simpa [resolveIngredients, hfind, hres] using h) i hi'

theorem foldl_pureStep_isSome
    (R : Product → Except Err NutritionFacts) (ps : List Product) :
    ∀ (l : List Ingredient) (acc : NutritionFacts × ℚ) (n : Nutrition),
      ((l.foldl (pureStep R ps) acc).1 n).isSome =
        ((acc.1 n).isSome ||
          l.any (fun ing =>
            (((ingFacts R ps ing).getD emptyFacts) n).isSome)) := by
  intro l
  induction l with
  | nil => intro acc n; simp
  | cons ing rest ih =>
    intro acc n
    simp [List.foldl_cons, List.any_cons, ih, pureStep, accumulate_isSome,
      Bool.or_assoc]

theorem pureStep_right_comm (R : Product → Except Err NutritionFacts)
    (ps : List Product) (acc : NutritionFacts × ℚ) (i j : Ingredient) :
    pureStep R ps (pureStep R ps acc i) j =
      pureStep R ps (pureStep R ps acc j) i := by
  simp [pureStep, accumulate_comm, add_right_comm]

theorem foldl_congr_mem {α β : Type} (g₁ g₂ : β → α → β) :
    ∀ (l : List α) (b : β), (∀ a ∈ l, ∀ x, g₁ x a = g₂ x a) →
      l.foldl g₁ b = l.foldl g₂ b := by
  intro l
  induction l with
  | nil => intro b _; simp
  | cons a rest ih =>
    intro b h
    simp only [List.foldl_cons]
    rw [h a (by simp) b, ih _ (fun x hx y => h x (by simp [hx]) y)]

theorem ingFacts_eq_directFacts (recur : Recipe → Except Err NutritionFacts)
    (loader : Loader) (ps : List Product) (ing : Ingredient)
    (h : (directFacts ps ing).isSome = true) :
    ingFacts (Product.resolveWith recur loader) ps ing =
      directFacts ps ing := by
  rcases hfind : ps.find? (fun p => p.name == ing.product) with _ | p
  · rw [directFacts, hfind] at h; simp at h
  · rcases hd : p.nutrition_data with f | path
    · rw [ingFacts, directFacts, hfind]
      simp [Product.resolveWith, hd, Except.toOption]
    · rw [directFacts, hfind] at h; simp [hd] at h

/-! ### Characterising the loop on directly declared facts -/

theorem specTotal_cons (ps : List Product) (ing : Ingredient)
    (rest : List Ingredient) (n : Nutrition) :
    specTotal ps (ing :: rest) n =
      (specContribution ps ing n).add (specTotal ps rest n) := rfl

theorem specTotal_eq_zero (ps : List Product) (n : Nutrition) :
    ∀ (l : List Ingredient), specHasKey ps l n = false →
      specTotal ps l n = .fin 0 := by
  intro l
  induction l with
  | nil => intro _; simp [specTotal]
  | cons ing rest ih =>
    intro h
    rw [specHasKey, List.any_cons] at h
    simp only [Bool.or_eq_false_iff] at h
    have ho : (directFacts ps ing).bind (fun f => f n) = none := by
      have h1 := h.1
      rw [ingredientHasDirectKey] at h1
      exact Option.not_isSome_iff_eq_none.mp (by simp [h1])
    have hc : specContribution ps ing n = .fin 0 := by
      simp [specContribution, ho]
    rw [specTotal_cons, hc, ih h.2, fzero_add]

theorem foldl_dStep_totals (ps : List Product) (n : Nutrition) :
    ∀ (l : List Ingredient) (acc : NutritionFacts × ℚ),
      (l.foldl (dStep ps) acc).1 n =
        if specHasKey ps l n then
          some ((acc.1 n).elim (specTotal ps l n)
            (fun t => t.add (specTotal ps l n)))
        else acc.1 n := by
  intro l
  induction l with
  | nil => intro acc; simp [specHasKey]
  | cons ing rest ih =>
    intro acc
    simp only [List.foldl_cons]
    rw [ih (dStep ps acc ing)]
    have hacc : (dStep ps acc ing).1 n =
        match (directFacts ps ing).bind (fun f => f n) with
        | none => acc.1 n
        | some x =>
          some ((acc.1 n).elim (contributionOf x ing.amount)
            (fun t => t.add (contributionOf x ing.amount))) := by
      rw [dStep]
      dsimp only
      rw [accumulate_eval, getD_eval]
    rcases ho : (directFacts ps ing).bind (fun f => f n) with _ | x
    · rw [ho] at hacc
      have hk : ingredientHasDirectKey ps ing n = false := by
        rw [ingredientHasDirectKey, ho]; rfl
      have hkey : specHasKey ps (ing :: rest) n = specHasKey ps rest n := by
        rw [specHasKey, List.any_cons, hk, Bool.false_or, specHasKey]
      have hc : specContribution ps ing n = .fin 0 := by
        simp [specContribution, ho]
      have htot : specTotal ps (ing :: rest) n = specTotal ps rest n := by
        rw [specTotal_cons, hc, fzero_add]
      rw [hkey, htot, hacc]
    · rw [ho] at hacc
      have hk : ingredientHasDirectKey ps ing n = true := by
        rw [ingredientHasDirectKey, ho]; rfl
      have hkey : specHasKey ps (ing :: rest) n = true := by
        rw [specHasKey, List.any_cons, hk, Bool.true_or]
      have hc : specContribution ps ing n = contributionOf x ing.amount := by
        simp [specContribution, ho]
      have htot : specTotal ps (ing :: rest) n =
          (contributionOf x ing.amount).add (specTotal ps rest n) := by
        rw [specTotal_cons, hc]
      rw [hkey, hacc, htot]
      rcases hK : specHasKey ps rest n with _ | _
      · rw [specTotal_eq_zero ps n rest hK, fadd_zero]
        simp only [if_neg Bool.false_ne_true]
        cases acc.1 n <;> simp
      · simp only [if_pos rfl]
        cases acc.1 n <;> simp [fadd_assoc]

theorem foldl_dStep_weight (ps : List Product) :
    ∀ (l : List Ingredient) (acc : NutritionFacts × ℚ),
      (l.foldl (dStep ps) acc).2 =
        acc.2 + (l.map (fun i => i.amount)).sum := by
  intro l
  induction l with
  | nil => intro acc; simp
  | cons ing rest ih =>
    intro acc
    simp [List.foldl_cons, ih, dStep, add_assoc]

/-! ### Claims -/

/-- Claim C1: for every recipe whose ingredients each match a product
carrying direct nutrition facts, resolution succeeds and returns exactly
the specification's formula: each nutrient appearing in at least one
matched product's facts maps to the sum over the ingredients of
`facts[nutrient] / 100 * ingredient.amount`, multiplied by `100 / basis`,
where the basis is `dish.weight` when present and the sum of ingredient
amounts otherwise. -/
theorem direct_resolution_matches_spec (loader : Loader) (fuel : Nat)
    (r : Recipe)
    (H : ∀ ing ∈ r.dish.ingredients,
      (directFacts r.products ing).isSome = true) :
    Recipe.getNutritionFacts loader (fuel + 1) r = .ok (specResolve r) := by
  have hIF : ∀ ing ∈ r.dish.ingredients,
      ingFacts (Product.resolveWith (Recipe.getNutritionFacts loader fuel)
        loader) r.products ing = directFacts r.products ing :=
    fun ing hm => ingFacts_eq_directFacts _ _ _ _ (H ing hm)
  have hSome : ∀ ing ∈ r.dish.ingredients,
      (ingFacts (Product.resolveWith (Recipe.getNutritionFacts loader fuel)
        loader) r.products ing).isSome = true :=
    fun ing hm => by rw [hIF ing hm]; exact H ing hm
  have h1 := resolveIngredients_ok_of_forall _ r.products r.dish.ingredients
    emptyFacts 0 hSome
  have hfold : r.dish.ingredients.foldl
      (pureStep (Product.resolveWith (Recipe.getNutritionFacts loader fuel)
        loader) r.products) (emptyFacts, 0) =
      r.dish.ingredients.foldl (dStep r.products) (emptyFacts, 0) :=
    foldl_congr_mem _ _ _ _ (fun ing hm x => by
      rw [pureStep, dStep, hIF ing hm])
  rw [hfold] at h1
  rcases hTW : r.dish.ingredients.foldl (dStep r.products) (emptyFacts, 0)
    with ⟨T, W⟩
  rw [hTW] at h1
  have hTn : ∀ n, T n =
      if specHasKey r.products r.dish.ingredients n then
        some (specTotal r.products r.dish.ingredients n)
      else none := by
    intro n
    have h2 := foldl_dStep_totals r.products n r.dish.ingredients
      (emptyFacts, 0)
    rw [hTW] at h2
    simpa [emptyFacts] using h2
  have hW : W = (r.dish.ingredients.map (fun i => i.amount)).sum := by
    have h3 := foldl_dStep_weight r.products r.dish.ingredients
      (emptyFacts, 0)
    rw [hTW] at h3
    simpa using h3
  simp only [Recipe.getNutritionFacts]
  rw [h1]
  refine congrArg Except.ok (funext fun n => ?_)
  rw [scaleFacts]
  rw [hTn n, hW, specResolve, specBasis]
  rcases hK : specHasKey r.products r.dish.ingredients n with _ | _
  · simp [hK]
  · simp [hK]

/-- Witness for C1: the source's own example dish (10 g of Oil with
Energy 1000 per 100 g) resolves to Energy 500 with an explicit dish weight
of 20 g, and to Energy 1000 with the weight omitted. -/
theorem direct_resolution_matches_spec_witness :
    Recipe.getNutritionFacts [] 1 oilRecipeW20 = .ok (specResolve oilRecipeW20) ∧
    Recipe.getNutritionFacts [] 1 oilRecipeNoW = .ok (specResolve oilRecipeNoW) ∧
    specResolve oilRecipeW20 = energyOnly 500 ∧
    specResolve oilRecipeNoW = energyOnly 1000 :=
  ⟨direct_resolution_matches_spec [] 0 oilRecipeW20 (by decide),
   direct_resolution_matches_spec [] 0 oilRecipeNoW (by decide),
   by with_unfolding_all decide,
   by with_unfolding_all decide⟩

/-- Claim C2 is violated by the code (code-bug evidence): with an empty
ingredient list and no explicit weight the resolver returns `Ok` with an
empty map instead of an `InvalidBasisWeight` error, and with an explicit
dish weight of zero it returns `Ok` with a non-finite `Energy` value
(`1000/100*10 = 100` accumulated, then `100 * (100/0) = infinity`). -/
theorem zero_basis_weight_not_rejected :
    Recipe.getNutritionFacts [] 1 emptyDishRecipe = .ok emptyFacts ∧
    Recipe.getNutritionFacts [] 1 zeroWeightRecipe = .ok nonfinEnergyOut ∧
    nonfinEnergyOut .Energy = some F64.nonfin :=
  ⟨by with_unfolding_all decide, by with_unfolding_all decide, rfl⟩

/-- Claim C3 is violated by the code (code-bug evidence): an ingredient
`cabbage` against a pantry of `Oil` and `Milk` makes the resolver panic
(a process crash, modelled as `Err.crash`) with the source's exact message
-- naming the missing ingredient and listing the pantry names in
declaration order -- instead of returning a recoverable `ProductNotFound`
error. -/
theorem missing_product_panics :
    Recipe.getNutritionFacts [] 1 cabbageRecipe =
      .error (.crash
        "Cannot find ingredient in recipe: cabbage possible products: Oil, Milk") := by
  with_unfolding_all decide

/-- One step of the cyclic chain: a recipe whose single ingredient matches
a product referencing a loadable document keeps failing with `outOfFuel`
whenever the referenced document does. -/
theorem cycle_step (loader : Loader) (path nm : String) (amt : ℚ)
    (r target : Recipe) (fuel : Nat)
    (hps : r.products = [⟨nm, .recipe path⟩])
    (hing : r.dish.ingredients = [⟨nm, amt⟩])
    (hl : List.lookup path loader = some target)
    (hrec : Recipe.getNutritionFacts loader fuel target = .error .outOfFuel) :
    Recipe.getNutritionFacts loader (fuel + 1) r = .error .outOfFuel := by
  simp [Recipe.getNutritionFacts, hing, hps, resolveIngredients, List.find?,
    Product.resolveWith, hl, hrec]

/-- Claim C4 is violated by the code (code-bug evidence): on the cyclic
chain `a.yaml → b.yaml → a.yaml` the resolver is still recursing at every
finite depth (it exhausts any fuel bound), so it never terminates with a
`CyclicReference` error -- the source has no cycle detection. -/
theorem cyclic_reference_diverges :
    ∀ fuel, Recipe.getNutritionFacts cycleLoader fuel recipeA =
      .error .outOfFuel := by
  have key : ∀ fuel,
      Recipe.getNutritionFacts cycleLoader fuel recipeA = .error .outOfFuel ∧
      Recipe.getNutritionFacts cycleLoader fuel recipeB = .error .outOfFuel := by
    intro fuel
    induction fuel with
    | zero => exact ⟨rfl, rfl⟩
    | succ n ih =>
      exact ⟨cycle_step cycleLoader "b.yaml" "B" 50 recipeA recipeB n rfl rfl
          (by with_unfolding_all rfl) ih.2,
        cycle_step cycleLoader "a.yaml" "A" 50 recipeB recipeA n rfl rfl
          (by with_unfolding_all rfl) ih.1⟩
  intro fuel
  exact (key fuel).1

/-- Claim C5: a product whose source is a `RecipeRef` is resolved by
loading the document at the referenced path and recursively applying the
same algorithm; the referenced document here resolves to Energy 200 per
100 g, and using it at 50 g in a dish of explicit weight 50 g yields
Energy 200 (at every sufficient recursion budget). -/
theorem recipe_ref_recursive_resolution :
    ∀ fuel,
      Recipe.getNutritionFacts refLoader (fuel + 1) innerRecipe =
        .ok (energyOnly 200) ∧
      Recipe.getNutritionFacts refLoader (fuel + 2) outerRecipe =
        .ok (energyOnly 200) := by
  intro fuel
  constructor
  · with_unfolding_all
      exact congrArg Except.ok (funext fun n => by cases n <;> rfl)
  · with_unfolding_all
      exact congrArg Except.ok (funext fun n => by cases n <;> rfl)

theorem productResolve_eq (loader : Loader) (fuel : Nat) :
    Product.resolveWith (Recipe.getNutritionFacts loader fuel) loader =
      Product.getNutritionFacts loader fuel := rfl

/-- Claim C6: when every ingredient resolves successfully, permuting the
ingredient list does not change the resolved facts -- accumulation is
commutative. -/
theorem ingredient_order_irrelevant (loader : Loader) (fuel : Nat)
    (ps : List Product) (w : Option ℚ) (ings₁ ings₂ : List Ingredient)
    (hperm : ings₁.Perm ings₂)
    (h : ∀ ing ∈ ings₁,
      (ingFacts (Product.getNutritionFacts loader fuel) ps ing).isSome
        = true) :
    Recipe.getNutritionFacts loader (fuel + 1) ⟨ps, ⟨ings₁, w⟩⟩ =
      Recipe.getNutritionFacts loader (fuel + 1) ⟨ps, ⟨ings₂, w⟩⟩ := by
  have h₂ : ∀ ing ∈ ings₂,
      (ingFacts (Product.getNutritionFacts loader fuel) ps ing).isSome
        = true :=
    fun ing hm => h ing (hperm.mem_iff.mpr hm)
  have e₁ := resolveIngredients_ok_of_forall
    (Product.resolveWith (Recipe.getNutritionFacts loader fuel) loader)
    ps ings₁ emptyFacts 0 h
  have e₂ := resolveIngredients_ok_of_forall
    (Product.resolveWith (Recipe.getNutritionFacts loader fuel) loader)
    ps ings₂ emptyFacts 0 h₂
  have hfold := hperm.foldl_eq'
    (fun x _ y _ z => pureStep_right_comm
      (Product.resolveWith (Recipe.getNutritionFacts loader fuel) loader)
      ps z x y)
    (emptyFacts, (0 : ℚ))
  rcases hTW : ings₁.foldl
      (pureStep (Product.resolveWith (Recipe.getNutritionFacts loader fuel)
        loader) ps) ((emptyFacts, 0) : NutritionFacts × ℚ) with ⟨T, W⟩
  have hTW₂ : ings₂.foldl
      (pureStep (Product.resolveWith (Recipe.getNutritionFacts loader fuel)
        loader) ps) ((emptyFacts, 0) : NutritionFacts × ℚ) = (T, W) := by
    rw [← hfold, hTW]
  rw [hTW] at e₁
  rw [hTW₂] at e₂
  simp only [Recipe.getNutritionFacts]
  rw [e₁, e₂]

/-- Witness for C6: a two-ingredient dish (10 g Oil, 20 g Milk) resolves
to the same facts after swapping the two ingredients. -/
theorem ingredient_order_irrelevant_witness :
    Recipe.getNutritionFacts [] 1
        ⟨[oilProduct, milkProteins], ⟨[⟨"Oil", 10⟩, ⟨"Milk", 20⟩], some 30⟩⟩ =
      Recipe.getNutritionFacts [] 1
        ⟨[oilProduct, milkProteins], ⟨[⟨"Milk", 20⟩, ⟨"Oil", 10⟩], some 30⟩⟩ :=
  ingredient_order_irrelevant [] 0 [oilProduct, milkProteins] (some 30)
    [⟨"Oil", 10⟩, ⟨"Milk", 20⟩] [⟨"Milk", 20⟩, ⟨"Oil", 10⟩]
    (List.Perm.swap (⟨"Milk", 20⟩ : Ingredient) (⟨"Oil", 10⟩ : Ingredient) [])
    (by decide)

theorem any_congr_mem {α : Type} (f g : α → Bool) :
    ∀ (l : List α), (∀ a ∈ l, f a = g a) → l.any f = l.any g := by
  intro l
  induction l with
  | nil => intro _; rfl
  | cons a rest ih =>
    intro h
    simp only [List.any_cons]
    rw [h a (by simp), ih (fun x hx => h x (by simp [hx]))]

/-- Claim C7: when resolution succeeds, the key set of the result is the
union of the key sets of the ingredients' resolved facts -- a nutrient is
present in the output exactly when some ingredient's facts carry it, so
scaling never invents or drops a key. -/
theorem result_keys_union_of_ingredient_keys (loader : Loader) (fuel : Nat)
    (r : Recipe) (out : NutritionFacts)
    (h : Recipe.getNutritionFacts loader (fuel + 1) r = .ok out) :
    ∀ n, (out n).isSome =
      r.dish.ingredients.any
        (fun ing => ingredientHasNutrient loader fuel r.products ing n) := by
  intro n
  simp only [Recipe.getNutritionFacts] at h
  rcases hres : resolveIngredients
      (Product.resolveWith (Recipe.getNutritionFacts loader fuel) loader)
      r.products r.dish.ingredients emptyFacts 0 with e | ⟨T, W⟩
  · rw [hres] at h
    simp at h
  · rw [hres] at h
    dsimp only at h
    injection h with h'
    have hsucc := resolveIngredients_forall_of_ok _ r.products
      r.dish.ingredients emptyFacts 0 (T, W) hres
    have e₁ := resolveIngredients_ok_of_forall _ r.products
      r.dish.ingredients emptyFacts 0 hsucc
    rw [hres] at e₁
    injection e₁ with e₁'
    have hT := congrArg Prod.fst e₁'
    dsimp only at hT
    have hTn : (T n).isSome =
        r.dish.ingredients.any (fun ing =>
          (((ingFacts (Product.resolveWith
            (Recipe.getNutritionFacts loader fuel) loader)
            r.products ing).getD emptyFacts) n).isSome) := by
      rw [hT]
      simpa using foldl_pureStep_isSome _ r.products r.dish.ingredients
        (emptyFacts, 0) n
    have hany := any_congr_mem
      (fun ing => (((ingFacts (Product.resolveWith
        (Recipe.getNutritionFacts loader fuel) loader)
        r.products ing).getD emptyFacts) n).isSome)
      (fun ing => ingredientHasNutrient loader fuel r.products ing n)
      r.dish.ingredients
      (fun ing hm => by
        rcases hif : ingFacts (Product.resolveWith
            (Recipe.getNutritionFacts loader fuel) loader)
            r.products ing with _ | f
        · have h1 := hsucc ing hm
          rw [hif] at h1
          simp at h1
        · simp only [ingredientHasNutrient, ← productResolve_eq, hif,
            Option.getD_some])
    rw [← h', ← hany, ← hTn]
    cases hTn' : T n <;> simp [scaleFacts, hTn']

/-- Witness for C7: the Oil dish's result has an `Energy` entry, and its
single ingredient's facts carry `Energy`. -/
theorem result_keys_union_witness :
    ((energyOnly 500) Nutrition.Energy).isSome =
      oilRecipeW20.dish.ingredients.any
        (fun ing =>
          ingredientHasNutrient [] 0 oilRecipeW20.products ing
            Nutrition.Energy) :=
  result_keys_union_of_ingredient_keys [] 0 oilRecipeW20 (energyOnly 500)
    (by with_unfolding_all decide) Nutrition.Energy

/-- Claim C8: the `Display` implementation renders the nutrients present
in the mapping in the fixed enumeration order Energy, Proteins, Fats,
Carbohydrates, omits absent nutrients (their line is empty), and each
rendered line is the nutrient's name followed by the amount formatted to
two decimal places (`formatF64`, e.g. `2.5 ↦ "2.50"` and
`500 ↦ "500.00"`). -/
theorem fmt_renders_in_enum_order :
    (∀ f : NutritionFacts,
      f.fmt =
        nutrLine .Energy (f .Energy) ++ nutrLine .Proteins (f .Proteins) ++
          nutrLine .Fats (f .Fats) ++
          nutrLine .Carbohydrates (f .Carbohydrates)) ∧
    formatF64 (.fin (5 / 2)) = "2.50" ∧
    formatF64 (.fin 500) = "500.00" := by
  refine ⟨?_, ?_, ?_⟩
  · intro f
    rcases hE : f .Energy with _ | a <;> rcases hP : f .Proteins with _ | b <;>
      rcases hF : f .Fats with _ | c <;>
      rcases hC : f .Carbohydrates with _ | d <;>
      simp [NutritionFacts.fmt, Nutrition.all, nutrLine, hE, hP, hF, hC,
        String.empty_append, String.append_assoc]
  · with_unfolding_all decide
  · with_unfolding_all decide

theorem find?_append_of_isSome {α : Type} (p : α → Bool)
    (l₁ l₂ : List α) (h : (l₁.find? p).isSome = true) :
    (l₁ ++ l₂).find? p = l₁.find? p := by
  rw [List.find?_append]
  rcases hf : l₁.find? p with _ | a
  · rw [hf] at h; simp at h
  · simp

theorem resolveIngredients_append (R : Product → Except Err NutritionFacts)
    (ps qs : List Product) :
    ∀ (l : List Ingredient),
      (∀ ing ∈ l,
        (ps.find? (fun p => p.name == ing.product)).isSome = true) →
      ∀ (totals : NutritionFacts) (tw : ℚ),
        resolveIngredients R (ps ++ qs) l totals tw =
          resolveIngredients R ps l totals tw := by
  intro l
  induction l with
  | nil => intro _ totals tw; rfl
  | cons ing rest ih =>
    intro h totals tw
    have h1 := h ing (by simp)
    have hfa : (ps ++ qs).find? (fun p => p.name == ing.product) =
        ps.find? (fun p => p.name == ing.product) :=
      find?_append_of_isSome _ ps qs h1
    rcases hfind : ps.find? (fun p => p.name == ing.product) with _ | p
    · rw [hfind] at h1; simp at h1
    · simp only [resolveIngredients, hfa, hfind]
      rcases R p with e | f
      · rfl
      · exact ih (fun i hi => h i (by simp [hi])) _ _

/-- Claim C9: the resolver uses the first product whose name matches, in
pantry declaration order; appending further products (in particular,
duplicates of an already-matched name) never changes the result, and
duplicate names cause no error. -/
theorem first_matching_product_wins (loader : Loader) (fuel : Nat)
    (ps qs : List Product) (d : Dish)
    (h : ∀ ing ∈ d.ingredients,
      (ps.find? (fun p => p.name == ing.product)).isSome = true) :
    Recipe.getNutritionFacts loader fuel ⟨ps ++ qs, d⟩ =
      Recipe.getNutritionFacts loader fuel ⟨ps, d⟩ := by
  cases fuel with
  | zero => rfl
  | succ n =>
    simp only [Recipe.getNutritionFacts]
    rw [resolveIngredients_append _ ps qs d.ingredients h emptyFacts 0]

/-- Witness for C9: with two products both named `Oil` (Energy 1000 and
Energy 2000), the dish resolves exactly as with the first alone, to
Energy 500 -- the duplicate neither errors nor influences the result. -/
theorem first_matching_product_wins_witness :
    Recipe.getNutritionFacts [] 1 ⟨[oilProduct] ++ [oilProduct2000], oilDish⟩ =
      Recipe.getNutritionFacts [] 1 ⟨[oilProduct], oilDish⟩ ∧
    Recipe.getNutritionFacts [] 1 ⟨[oilProduct], oilDish⟩ =
      .ok (energyOnly 500) :=
  ⟨first_matching_product_wins [] 1 [oilProduct] [oilProduct2000] oilDish
      (by decide),
    by with_unfolding_all decide⟩

/-- Claim C10 as stated is violated by the code (counterexample): 10 g of
a product declaring Energy 0 in a dish of explicit weight 0 resolves
successfully, and the `Energy` key is present, but its value is the
non-finite `0 * (100/0)` rather than `0.0`. -/
theorem present_zero_counterexample :
    Recipe.getNutritionFacts [] 1 zeroWeightZeroEnergyRecipe =
      .ok nonfinEnergyOut ∧
    nonfinEnergyOut .Energy = some F64.nonfin ∧
    F64.nonfin ≠ F64.fin 0 :=
  ⟨by with_unfolding_all decide, rfl, by decide⟩

/-- Claim C10 as amended: when resolution succeeds and the effective basis
weight is nonzero, a nutrient whose accumulated total is present with
value `0.0` stays present with value `0.0` in the scaled result --
present-with-zero remains distinguishable from absent. -/
theorem present_zero_preserved (loader : Loader) (fuel : Nat) (r : Recipe)
    (T : NutritionFacts) (W : ℚ) (n : Nutrition) (out : NutritionFacts)
    (hres : resolveIngredients (Product.getNutritionFacts loader fuel)
      r.products r.dish.ingredients emptyFacts 0 = .ok (T, W))
    (hT : T n = some (.fin 0))
    (hw : r.dish.weight.getD W ≠ 0)
    (hout : Recipe.getNutritionFacts loader (fuel + 1) r = .ok out) :
    out n = some (.fin 0) := by
  simp only [Recipe.getNutritionFacts] at hout
  rw [productResolve_eq] at hout
  rw [hres] at hout
  dsimp only at hout
  injection hout with hout'
  rw [← hout']
  simp [scaleFacts, hT, F64.divQ, F64.mul, hw]

/-- Witness for the amended C10: 10 g of a zero-Energy product at dish
weight 20 g resolves with `Energy` present and equal to `0.0`. -/
theorem present_zero_preserved_witness :
    Recipe.getNutritionFacts [] 1 zeroEnergyRecipeW20 = .ok (energyOnly 0) ∧
    energyOnly 0 Nutrition.Energy = some (F64.fin 0) :=
  ⟨by with_unfolding_all decide,
    present_zero_preserved [] 0 zeroEnergyRecipeW20 (energyOnly 0) 10
      Nutrition.Energy (energyOnly 0)
      (by with_unfolding_all decide)
      (by with_unfolding_all decide)
      (by with_unfolding_all decide)
      (by with_unfolding_all decide)⟩

end Nutritions
